import Mathlib

set_option maxRecDepth 8000

namespace LegalRAG

/-! Shallow embedding of the LegalRAG chunking core:
`app/rag/text_processing.py` (TextNormalizer), `app/rag/chunking.py`
(LegalChunker) and `app/rag/law_mapper.py` (LawCodeMapper).
Strings are modelled as `String` (Python `len`/slicing are code-point
based, matching `String.data : List Char`).  Python regular expressions
are modelled by a small backtracking engine over an explicit regex AST;
fuel arguments make every function structurally recursive so that
concrete runs reduce inside the kernel.  Fuel bounds are generous
over-approximations of the recursion depth, so adequate for every input. -/

/-- Simple case folding used to model `re.IGNORECASE` matching for the
character repertoire appearing in this code base (ASCII plus the
Azerbaijani letters used in the patterns). -/
def pyLower (c : Char) : Char :=
  if 'A' ≤ c ∧ c ≤ 'Z' then Char.ofNat (c.toNat + 32)
  else if c = 'Ç' then 'ç'
  else if c = 'Ə' then 'ə'
  else if c = 'Ğ' then 'ğ'
  else if c = 'İ' then 'i'
  else if c = 'Ö' then 'ö'
  else if c = 'Ş' then 'ş'
  else if c = 'Ü' then 'ü'
  else c

/-- The set of characters matched by Python's `\s` (and stripped by
`str.strip()`): ASCII whitespace plus the Unicode whitespace code points. -/
def pyIsSpace (c : Char) : Bool :=
  let n := c.toNat
  n = 0x20 || (0x9 ≤ n && n ≤ 0xd) || (0x1c ≤ n && n ≤ 0x1f) ||
  n = 0x85 || n = 0xa0 || n = 0x1680 || (0x2000 ≤ n && n ≤ 0x200a) ||
  n = 0x2028 || n = 0x2029 || n = 0x202f || n = 0x205f || n = 0x3000

/-- Python `str.strip()` on a character list. -/
def stripList (l : List Char) : List Char :=
  ((l.dropWhile pyIsSpace).reverse.dropWhile pyIsSpace).reverse

/-- Python `str.strip()`. -/
def pyStrip (s : String) : String := String.mk (stripList s.data)

/-- Python slicing `s[a:b]` (code-point based, `a ≤ b` in all uses). -/
def sliceStr (s : String) (a b : Nat) : String :=
  String.mk ((s.data.drop a).take (b - a))

/-- Regex AST: enough to express every pattern occurring in the source.
`star true r` is a greedy `r*`, `star false r` a lazy `r*?`; single-char
classes are predicates. -/
inductive Regex where
  | eps : Regex
  | pcls (p : Char → Bool) : Regex
  | seq (a b : Regex) : Regex
  | alt (a b : Regex) : Regex
  | star (greedy : Bool) (r : Regex) : Regex

/-- Structural size of a regex, used only to compute fuel bounds. -/
def Regex.sizeR : Regex → Nat
  | .eps => 1
  | .pcls _ => 1
  | .seq a b => a.sizeR + b.sizeR + 1
  | .alt a b => a.sizeR + b.sizeR + 1
  | .star _ r => r.sizeR + 1

/-- All ways a regex can match a prefix of `s`, as the list of remaining
suffixes, in Python backtracking preference order (first element is the
match Python's engine reports).  Star bodies in this code base never
match the empty string; iterations that fail to consume input are
discarded, which both matches that behaviour and bounds the recursion. -/
def Regex.runF : Nat → Regex → List Char → List (List Char)
  | 0, _, _ => []
  | fuel+1, r, s =>
    match r with
    | .eps => [s]
    | .pcls p =>
      match s with
      | [] => []
      | c :: rest => if p c then [rest] else []
    | .seq a b => (Regex.runF fuel a s).flatMap (fun t => Regex.runF fuel b t)
    | .alt a b => Regex.runF fuel a s ++ Regex.runF fuel b s
    | .star g r =>
      let tails := (Regex.runF fuel r s).filter (fun t => t.length < s.length)
      let deeper := tails.flatMap (fun t => Regex.runF fuel (.star g r) t)
      if g then deeper ++ [s] else s :: deeper

/-- Fuel sufficient for `Regex.runF` on `r` and `s`. -/
def runFuel (r : Regex) (s : List Char) : Nat :=
  (r.sizeR + 2) * (s.length + 2)

/-- Python `re.search` scan: leftmost match position wins; returns the
matched text.  `rf` is the fuel handed to the match engine. -/
def searchGo (rf : Nat) (r : Regex) : Nat → List Char → Option (List Char)
  | 0, _ => none
  | f+1, s =>
    match (Regex.runF rf r s).head? with
    | some rem => some (s.take (s.length - rem.length))
    | none =>
      match s with
      | [] => none
      | _ :: t => searchGo rf r f t

/-- `re.search(r, s)` returning the matched text (all structural patterns
of the source wrap the whole pattern in group 1, so `match.group(1)` is
the whole matched text). -/
def reSearchTxt (r : Regex) (s : String) : Option String :=
  (searchGo (runFuel r s.data) r (s.data.length + 1) s.data).map String.mk

/-- `re.search(r, s) is not None`. -/
def reTest (r : Regex) (s : String) : Bool := (reSearchTxt r s).isSome

/-- Python `re.sub` scan: leftmost non-overlapping matches replaced by
`repl`; an empty match replaces and then passes one character through. -/
def substGo (rf : Nat) (r : Regex) (repl : List Char) : Nat → List Char → List Char
  | 0, s => s
  | f+1, s =>
    match (Regex.runF rf r s).head? with
    | some rem =>
      if rem.length < s.length then repl ++ substGo rf r repl f rem
      else
        match s with
        | [] => repl
        | c :: t => repl ++ (c :: substGo rf r repl f t)
    | none =>
      match s with
      | [] => []
      | c :: t => c :: substGo rf r repl f t

/-- `re.sub(r, repl, s)`. -/
def reSub (r : Regex) (repl : String) (s : String) : String :=
  String.mk (substGo (runFuel r s.data) r repl.data (s.data.length + 2) s.data)

/-- Start offsets of the non-overlapping matches produced by
`re.finditer(r, s)` (the source only uses `match.start()`). -/
def finditGo (rf : Nat) (r : Regex) : Nat → Nat → List Char → List Nat
  | 0, _, _ => []
  | f+1, i, s =>
    match (Regex.runF rf r s).head? with
    | some rem =>
      let k := s.length - rem.length
      if 0 < k then i :: finditGo rf r f (i + k) rem
      else
        i :: (match s with
          | [] => []
          | _ :: t => finditGo rf r f (i + 1) t)
    | none =>
      match s with
      | [] => []
      | _ :: t => finditGo rf r f (i + 1) t

/-- `[m.start() for m in re.finditer(r, s)]`. -/
def reFindStarts (r : Regex) (s : String) : List Nat :=
  finditGo (runFuel r s.data) r (s.data.length + 2) 0 s.data

/-! Direct translations of the fixed-text regex rewrites of
`TextNormalizer.normalize_text`: `re.sub(r"\s+", " ", text)` replaces every
maximal whitespace run by a single space, `re.sub(r"\n+", "\n", text)`
every maximal newline run by a single newline.  They are implemented by
a flag-carrying structural recursion (flag = previous character belonged
to a run). -/

/-- Worker for `collapseWs`; the flag records whether the previous
character was whitespace (i.e. we are inside a run already rewritten). -/
def collapseWsGo : Bool → List Char → List Char
  | _, [] => []
  | prev, c :: r =>
    if pyIsSpace c then
      if prev then collapseWsGo true r else ' ' :: collapseWsGo true r
    else c :: collapseWsGo false r

/-- `re.sub(r"\s+", " ", text)`. -/
def collapseWs (s : String) : String := String.mk (collapseWsGo false s.data)

/-- Worker for `collapseNl`. -/
def collapseNlGo : Bool → List Char → List Char
  | _, [] => []
  | prev, c :: r =>
    if c = '\n' then
      if prev then collapseNlGo true r else '\n' :: collapseNlGo true r
    else c :: collapseNlGo false r

/-- `re.sub(r"\n+", "\n", text)`. -/
def collapseNl (s : String) : String := String.mk (collapseNlGo false s.data)

/-! Direct translations of the two `re.split` calls of
`LegalChunker._fallback_split`. -/

/-- Worker for `splitNl`: `re.split(r"\n", text)` cuts at every newline
(equivalent to `text.split("\n")`). -/
def splitNlGo : List Char → List (List Char)
  | [] => [[]]
  | c :: r =>
    match splitNlGo r with
    | [] => [[]]
    | h :: t => if c = '\n' then [] :: h :: t else (c :: h) :: t

/-- `re.split(r"\n", text)`. -/
def splitNl (s : String) : List String := (splitNlGo s.data).map String.mk

/-- Index of the last `'\n'` in a character list, if any. -/
def lastNlIdx : List Char → Option Nat
  | [] => none
  | c :: r =>
    match lastNlIdx r with
    | some j => some (j + 1)
    | none => if c = '\n' then some 0 else none

/-- Worker for `splitBlank`: `re.split(r"\n\s*\n", text)`.  A separator
match starts at a newline whose following maximal whitespace run contains
another newline; the greedy `\s*` makes the match extend to the last
newline inside that run. -/
def splitBlankGo : Nat → List Char → List (List Char)
  | 0, l => [l]
  | f+1, l =>
    match l with
    | [] => [[]]
    | c :: r =>
      if c = '\n' then
        match lastNlIdx (r.takeWhile pyIsSpace) with
        | some j => [] :: splitBlankGo f (r.drop (j + 1))
        | none =>
          match splitBlankGo f r with
          | [] => [[]]
          | h :: t => (c :: h) :: t
      else
        match splitBlankGo f r with
        | [] => [[]]
        | h :: t => (c :: h) :: t

/-- `re.split(r"\n\s*\n", text)`. -/
def splitBlank (s : String) : List String :=
  (splitBlankGo (s.data.length + 1) s.data).map String.mk

/-- Worker for the forced fixed-window split of `_fallback_split`:
`text[i : i + chunk_size]` for `i in range(0, len(text), chunk_size)`,
keeping windows whose `strip()` is non-empty. -/
def winGo (cs : Nat) : Nat → List Char → List String
  | 0, _ => []
  | _, [] => []
  | f+1, l =>
    let w := String.mk (l.take cs)
    (if pyStrip w = "" then [] else [w]) ++ winGo cs f (l.drop cs)

/-! Regex notation helpers used to transcribe the Python patterns.
Every pattern below is compiled with `re.IGNORECASE` (detection patterns
also with `re.UNICODE`), so literal letters and class members match up to
`pyLower` case folding; characters escaped or without case are matched
exactly. -/

/-- A literal character under `re.IGNORECASE`. -/
def chC (c : Char) : Regex := .pcls (fun d => pyLower d == pyLower c)

/-- A character matched exactly (escaped metacharacters, digits, ...). -/
def exCh (c : Char) : Regex := .pcls (fun d => d == c)

/-- A literal string under `re.IGNORECASE`. -/
def litCI (s : String) : Regex := (s.data.map chC).foldr .seq .eps

/-- A character class `[...]` of the listed characters, under
`re.IGNORECASE`. -/
def oneOfCI (s : String) : Regex :=
  .pcls (fun d => (s.data.map pyLower).contains (pyLower d))

/-- A character class of the listed characters, matched exactly
(caseless characters such as dashes). -/
def oneOfEx (s : String) : Regex := .pcls (fun d => s.data.contains d)

/-- A negated class `[^c]`. -/
def notChEx (c : Char) : Regex := .pcls (fun d => !(d == c))

/-- `\s`. -/
def wsR : Regex := .pcls pyIsSpace

/-- `\d` (the documents use ASCII digits). -/
def digR : Regex := .pcls (fun d => d.isDigit)

/-- `.` without `re.DOTALL`: any character except a newline. -/
def dotAny : Regex := .pcls (fun d => !(d == '\n'))

/-- Greedy `r+`. -/
def rplus (r : Regex) : Regex := .seq r (.star true r)

/-- Greedy `r*`. -/
def rstar (r : Regex) : Regex := .star true r

/-- Lazy `r*?`. -/
def lazyStar (r : Regex) : Regex := .star false r

/-- Sequence of regexes. -/
def seqs (l : List Regex) : Regex := l.foldr .seq .eps

/-- `\d+(?:\.\d+)*` — a dotted article number such as `127.1.1`. -/
def dottedNum : Regex :=
  .seq (rplus digR) (rstar (.seq (exCh '.') (rplus digR)))

/-- The class `[A-ZÇƏĞIƏÖŞÜ]` under `re.IGNORECASE` (so it also matches
the corresponding lowercase letters). -/
def upperAZext : Regex :=
  .pcls (fun d =>
    let l := pyLower d
    (decide ('a' ≤ l) && decide (l ≤ 'z')) || l == 'ç' || l == 'ə' ||
    l == 'ğ' || l == 'ö' || l == 'ş' || l == 'ü')

/-- `chapter_patterns` of `LegalChunker.extract_legal_structure`
(chunking.py, "Fəsil" headings). -/
def chapter_patterns : List Regex := [
  -- r"(F[əƏ]s[iİ]l\s+[IVXLCDM]+)"
  seqs [chC 'F', oneOfCI "əƏ", chC 's', oneOfCI "iİ", chC 'l',
        rplus wsR, rplus (oneOfCI "IVXLCDM")],
  -- r"(F[əƏ]s[iİ]l\s+\d+)"
  seqs [chC 'F', oneOfCI "əƏ", chC 's', oneOfCI "iİ", chC 'l',
        rplus wsR, rplus digR],
  -- r"(FASIL\s+[IVXLCDM]+)"
  seqs [litCI "FASIL", rplus wsR, rplus (oneOfCI "IVXLCDM")],
  -- r"(FASIL\s+\d+)"
  seqs [litCI "FASIL", rplus wsR, rplus digR],
  -- r"(\d+\s*[-–—]\s*c[iüıə]\s+f[əƏ]s[iİ]l)"
  seqs [rplus digR, rstar wsR, oneOfEx "-–—", rstar wsR, chC 'c',
        oneOfCI "iüıə", rplus wsR, chC 'f', oneOfCI "əƏ", chC 's',
        oneOfCI "iİ", chC 'l']
]

/-- `section_patterns` of `LegalChunker.extract_legal_structure`
(chunking.py, "Bölüm"/"Hissə" headings). -/
def section_patterns : List Regex := [
  -- r"(B[öÖ]l[üÜ]m\s+[IVXLCDM]+)"
  seqs [chC 'B', oneOfCI "öÖ", chC 'l', oneOfCI "üÜ", chC 'm',
        rplus wsR, rplus (oneOfCI "IVXLCDM")],
  -- r"(B[öÖ]l[üÜ]m\s+\d+)"
  seqs [chC 'B', oneOfCI "öÖ", chC 'l', oneOfCI "üÜ", chC 'm',
        rplus wsR, rplus digR],
  -- r"(BÖLÜM\s+[IVXLCDM]+)"
  seqs [litCI "BÖLÜM", rplus wsR, rplus (oneOfCI "IVXLCDM")],
  -- r"(BÖLÜM\s+\d+)"
  seqs [litCI "BÖLÜM", rplus wsR, rplus digR],
  -- r"(H[iİ]ss[əƏ]\s+[IVXLCDM]+)"
  seqs [chC 'H', oneOfCI "iİ", chC 's', chC 's', oneOfCI "əƏ",
        rplus wsR, rplus (oneOfCI "IVXLCDM")],
  -- r"(H[iİ]ss[əƏ]\s+\d+)"
  seqs [chC 'H', oneOfCI "iİ", chC 's', chC 's', oneOfCI "əƏ",
        rplus wsR, rplus digR],
  -- r"(HİSSƏ\s+[IVXLCDM]+)"
  seqs [litCI "HİSSƏ", rplus wsR, rplus (oneOfCI "IVXLCDM")],
  -- r"(HİSSƏ\s+\d+)"
  seqs [litCI "HİSSƏ", rplus wsR, rplus digR]
]

/-- `article_patterns` of `LegalChunker.extract_legal_structure`
(chunking.py, "Maddə"/"Bənd" provisions). -/
def article_patterns : List Regex := [
  -- r"(M[aA]dd[əeE]\s+(\d+(?:\.\d+)*))"
  seqs [chC 'M', oneOfCI "aA", chC 'd', chC 'd', oneOfCI "əeE",
        rplus wsR, dottedNum],
  -- r"(MADDƏ\s+(\d+(?:\.\d+)*))"
  seqs [litCI "MADDƏ", rplus wsR, dottedNum],
  -- r"((\d+(?:\.\d+)*)\s*[-–—]\s*c[iüıə]\s+m[aA]dd[əeE])"
  seqs [dottedNum, rstar wsR, oneOfEx "-–—", rstar wsR, chC 'c',
        oneOfCI "iüıə", rplus wsR, chC 'm', oneOfCI "aA", chC 'd',
        chC 'd', oneOfCI "əeE"],
  -- r"((\d+(?:\.\d+)*)\.\s*[A-ZÇƏĞIƏÖŞÜ])"
  seqs [dottedNum, exCh '.', rstar wsR, upperAZext],
  -- r"((\d+(?:\.\d+)*)\)\s*[A-ZÇƏĞIƏÖŞÜ])"
  seqs [dottedNum, exCh ')', rstar wsR, upperAZext],
  -- r"(B[əeE]nd\s+(\d+(?:\.\d+)*))"
  seqs [chC 'B', oneOfCI "əeE", chC 'n', chC 'd', rplus wsR, dottedNum],
  -- r"(BƏND\s+(\d+(?:\.\d+)*))"
  seqs [litCI "BƏND", rplus wsR, dottedNum]
]

/-- The combined pattern list used for boundary discovery
(`all_patterns = chapter_patterns + section_patterns + article_patterns`). -/
def all_patterns : List Regex :=
  chapter_patterns ++ section_patterns ++ article_patterns

/-- The Unicode strikethrough combining-character class
`[̶̷̸͓͔҈҉]`. -/
def strikeCls : Regex :=
  .pcls (fun d =>
    let n := d.toNat
    n = 0x336 || n = 0x337 || n = 0x338 || n = 0x353 || n = 0x354 ||
    n = 0x488 || n = 0x489)

/-- `invalidation_patterns` of `TextNormalizer.detect_invalidated_text`
(text_processing.py), in source order. -/
def invalidation_patterns : List Regex := [
  -- r"[̶̷̸͓͔҈҉]"
  strikeCls,
  -- r"~~[^~]+~~"
  seqs [exCh '~', exCh '~', rplus (notChEx '~'), exCh '~', exCh '~'],
  -- r"--[^-]+--"
  seqs [exCh '-', exCh '-', rplus (notChEx '-'), exCh '-', exCh '-'],
  -- r"<strike>.*?</strike>"
  seqs [litCI "<strike>", lazyStar dotAny, litCI "</strike>"],
  -- r"<s>.*?</s>"
  seqs [litCI "<s>", lazyStar dotAny, litCI "</s>"],
  -- r"<del>.*?</del>"
  seqs [litCI "<del>", lazyStar dotAny, litCI "</del>"],
  -- r"\[ləğv edilib\]"
  seqs [exCh '[', litCI "ləğv edilib", exCh ']'],
  -- r"\[mətn ləğv edilib\]"
  seqs [exCh '[', litCI "mətn ləğv edilib", exCh ']'],
  -- r"\(ləğv edilib\)"
  seqs [exCh '(', litCI "ləğv edilib", exCh ')'],
  -- r"qüvvədən düşüb"
  litCI "qüvvədən düşüb",
  -- r"qüvvədən düşmüşdür"
  litCI "qüvvədən düşmüşdür",
  -- r"qüvvədən çıxarılıb"
  litCI "qüvvədən çıxarılıb",
  -- r"ləğv olunub"
  litCI "ləğv olunub",
  -- r"[─━═]+"
  rplus (oneOfEx "─━═")
]

/-- `r"17\.2\.3"` of the special-case check (searched without flags). -/
def re1723 : Regex :=
  seqs [exCh '1', exCh '7', exCh '.', exCh '2', exCh '.', exCh '3']

/-- The horizontal line-drawing characters of the special-case check
(`"─━═"`). -/
def lineChars : String := "─━═"

/-- The despacing table of `TextNormalizer.fix_spaced_text`: each entry
is a regex of keyword letters separated by `\s+` (matched with
`re.IGNORECASE`) together with its replacement. -/
def spacedPats : List (Regex × String) := [
  -- (r"M\s+a\s+d\s+d\s+ə", "Maddə")
  (seqs [chC 'M', rplus wsR, chC 'a', rplus wsR, chC 'd', rplus wsR,
         chC 'd', rplus wsR, chC 'ə'], "Maddə"),
  -- (r"M\s+A\s+D\s+D\s+Ə", "MADDƏ")
  (seqs [chC 'M', rplus wsR, chC 'A', rplus wsR, chC 'D', rplus wsR,
         chC 'D', rplus wsR, chC 'Ə'], "MADDƏ"),
  -- (r"F\s+ə\s+s\s+i\s+l", "Fəsil")
  (seqs [chC 'F', rplus wsR, chC 'ə', rplus wsR, chC 's', rplus wsR,
         chC 'i', rplus wsR, chC 'l'], "Fəsil"),
  -- (r"F\s+Ə\s+S\s+İ\s+L", "FƏSİL")
  (seqs [chC 'F', rplus wsR, chC 'Ə', rplus wsR, chC 'S', rplus wsR,
         chC 'İ', rplus wsR, chC 'L'], "FƏSİL"),
  -- (r"B\s+ə\s+n\s+d", "Bənd")
  (seqs [chC 'B', rplus wsR, chC 'ə', rplus wsR, chC 'n', rplus wsR,
         chC 'd'], "Bənd"),
  -- (r"B\s+Ə\s+N\s+D", "BƏND")
  (seqs [chC 'B', rplus wsR, chC 'Ə', rplus wsR, chC 'N', rplus wsR,
         chC 'D'], "BƏND"),
  -- (r"H\s+i\s+s\s+s\s+ə", "Hissə")
  (seqs [chC 'H', rplus wsR, chC 'i', rplus wsR, chC 's', rplus wsR,
         chC 's', rplus wsR, chC 'ə'], "Hissə"),
  -- (r"H\s+İ\s+S\s+S\s+Ə", "HİSSƏ")
  (seqs [chC 'H', rplus wsR, chC 'İ', rplus wsR, chC 'S', rplus wsR,
         chC 'S', rplus wsR, chC 'Ə'], "HİSSƏ"),
  -- (r"B\s+ö\s+l\s+ü\s+m", "Bölüm")
  (seqs [chC 'B', rplus wsR, chC 'ö', rplus wsR, chC 'l', rplus wsR,
         chC 'ü', rplus wsR, chC 'm'], "Bölüm"),
  -- (r"B\s+Ö\s+L\s+Ü\s+M", "BÖLÜM")
  (seqs [chC 'B', rplus wsR, chC 'Ö', rplus wsR, chC 'L', rplus wsR,
         chC 'Ü', rplus wsR, chC 'M'], "BÖLÜM")
]

/-- `TextNormalizer.fix_spaced_text`. -/
def fix_spaced_text (t : String) : String :=
  spacedPats.foldl (fun acc pr => reSub pr.1 pr.2 acc) t

/-- The cleanup stage of `detect_invalidated_text`: strip every
invalidation-pattern match, then drop the remaining strikethrough
combining characters (`ord(char) not in range(0x0336, 0x0338)`). -/
def stripInva (t : String) : String :=
  let c := invalidation_patterns.foldl (fun acc p => reSub p "" acc) t
  String.mk (c.data.filter (fun ch => !(ch.toNat = 0x336 || ch.toNat = 0x337)))

/-- `TextNormalizer.detect_invalidated_text`: the validity flag is the
loop over `invalidation_patterns` (any match anywhere marks the whole
input invalid) combined with the special `17.2.3` / line-character
check; the cleaned text is the stripped input, `strip()`ped. -/
def detect_invalidated_text (t : String) : String × Bool :=
  let anyPat := invalidation_patterns.any (fun p => reTest p t)
  let special := reTest re1723 t && t.data.any (fun c => lineChars.data.contains c)
  (pyStrip (stripInva t), !anyPat && !special)

/-- `TextNormalizer.normalize_text`: despace, detect-and-strip
invalidated text, collapse whitespace runs, collapse newline runs, trim. -/
def normalize_text (t : String) : String × Bool :=
  let t1 := fix_spaced_text t
  let pr := detect_invalidated_text t1
  (pyStrip (collapseNl (collapseWs pr.1)), pr.2)

/-- `LegalChunk` of app/rag/models.py.  The Python field `section` is a
Lean keyword and is rendered `sectionL`; `metadata` (a `Dict[str, str]`
built by `_create_metadata`) is an insertion-ordered association list. -/
structure LegalChunk where
  content : String
  law_code : String
  chapter : Option String := none
  article : Option String := none
  sub_article : Option String := none
  sectionL : Option String := none
  chunk_type : String := "content"
  is_valid : Bool := true
  metadata : List (String × String) := []
deriving DecidableEq, Repr

/-- One value of the `LAW_CODES` table of `LawCodeMapper`
(app/rag/law_mapper.py). -/
structure LawInfo where
  code : String
  name_az : String
  name_en : String
deriving DecidableEq, Repr

/-- `LawCodeMapper.LAW_CODES`, keys in insertion order; the `name_az`
strings are copied byte-for-byte from the source file (which stores them
in a mangled encoding). -/
def LAW_CODES : List (String × LawInfo) := [
  ("family-law-code.pdf",
   { code := "family", name_az := "Ail…ô M…ôc…ôll…ôsi", name_en := "Family Law Code" }),
  ("criminal_law_code.pdf",
   { code := "criminal", name_az := "Cinay…ôt M…ôc…ôll…ôsi", name_en := "Criminal Law Code" }),
  ("civil_law_code.pdf",
   { code := "civil", name_az := "M√ºlki M…ôc…ôll…ô", name_en := "Civil Law Code" }),
  ("criminal_procedure_law_code.pdf",
   { code := "criminal_procedure", name_az := "Cinay…ôt Prosessual M…ôc…ôll…ôsi",
     name_en := "Criminal Procedure Code" }),
  ("civil_procedure_law_code.pdf",
   { code := "civil_procedure", name_az := "M√ºlki Prosessual M…ôc…ôll…ô",
     name_en := "Civil Procedure Code" }),
  ("labor_law_code.pdf",
   { code := "labor", name_az := "∆èm…ôk M…ôc…ôll…ôsi", name_en := "Labor Law Code" }),
  ("administrative_offenses_law_code.pdf",
   { code := "administrative_offenses", name_az := "ƒ∞nzibati X…ôtalar M…ôc…ôll…ôsi",
     name_en := "Administrative Offenses Code" }),
  ("administrative_procedure_law_code.pdf",
   { code := "administrative_procedure", name_az := "ƒ∞nzibati Prosedur M…ôc…ôll…ôsi",
     name_en := "Administrative Procedure Code" }),
  ("competition_law_code.pdf",
   { code := "competition", name_az := "R…ôqab…ôt M…ôc…ôll…ôsi",
     name_en := "Competition Law Code" }),
  ("customs_law_code.pdf",
   { code := "customs", name_az := "G√∂mr√ºk M…ôc…ôll…ôsi", name_en := "Customs Code" }),
  ("election_law_code.pdf",
   { code := "election", name_az := "Se√ßki M…ôc…ôll…ôsi", name_en := "Election Code" }),
  ("execution_of_sentences_law_code.pdf",
   { code := "execution", name_az := "C…ôzalarƒ±n ƒ∞crasƒ± M…ôc…ôll…ôsi",
     name_en := "Execution of Sentences Code" }),
  ("forest_law_code.pdf",
   { code := "forest", name_az := "Me≈ü…ô M…ôc…ôll…ôsi", name_en := "Forest Code" }),
  ("housing_law_code.pdf",
   { code := "housing", name_az := "M…ônzil M…ôc…ôll…ôsi", name_en := "Housing Code" }),
  ("land_law_code.pdf",
   { code := "land", name_az := "Torpaq M…ôc…ôll…ôsi", name_en := "Land Code" }),
  ("merchant_shipping_law_code.pdf",
   { code := "merchant_shipping", name_az := "Ticar…ôt G…ômi√ßiliyi M…ôc…ôll…ôsi",
     name_en := "Merchant Shipping Code" }),
  ("migration_law_code.pdf",
   { code := "migration", name_az := "Miqrasiya M…ôc…ôll…ôsi", name_en := "Migration Code" }),
  ("urban_planning_and_construction_law_code.pdf",
   { code := "urban_planning", name_az := "≈û…ôh…ôrsalma v…ô Tikinti M…ôc…ôll…ôsi",
     name_en := "Urban Planning and Construction Code" }),
  ("water_law_code.pdf",
   { code := "water", name_az := "Su M…ôc…ôll…ôsi", name_en := "Water Code" })
]

/-- The law-info loop of `_create_metadata`: the preset fallback
`{"code": law_code, "name_az": "Unknown", "name_en": "Unknown"}` is
replaced by the first table entry whose `code` equals `law_code`. -/
def lawInfoFor (law_code : String) : LawInfo :=
  match LAW_CODES.find? (fun pr => pr.2.code == law_code) with
  | some pr => pr.2
  | none => { code := law_code, name_az := "Unknown", name_en := "Unknown" }

/-- Python truthiness of an optional string (`if chapter:` is taken for
a present, non-empty value). -/
def truthyOpt : Option String → Option String
  | some v => if v = "" then none else some v
  | none => none

/-- `LegalChunker._create_metadata`: the four base entries plus, for each
truthy hierarchy argument, its paired `_context` entry, and for a truthy
article number the `article_number` / `article_reference` pair. -/
def createMetadata (chunk_type law_code : String)
    (chapter sectionL article article_num : Option String) :
    List (String × String) :=
  let law := lawInfoFor law_code
  let base := [("law_code", law_code), ("law_name_az", law.name_az),
               ("law_name_en", law.name_en), ("chunk_type", chunk_type)]
  let m1 := match truthyOpt chapter with
    | some v => base ++ [("chapter", v), ("chapter_context", v)]
    | none => base
  let m2 := match truthyOpt sectionL with
    | some v => m1 ++ [("section", v), ("section_context", v)]
    | none => m1
  let m3 := match truthyOpt article with
    | some v => m2 ++ [("article", v), ("article_context", v)]
    | none => m2
  match truthyOpt article_num with
  | some v => m3 ++ [("article_number", v), ("article_reference", "Maddə " ++ v)]
  | none => m3

/-- `LegalChunker._match_patterns`: try the patterns in order, return the
first `re.search` hit (its group 1, which is the whole matched text). -/
def matchPatternsM : List Regex → String → Option String
  | [], _ => none
  | p :: rest, t =>
    match reSearchTxt p t with
    | some m => some m
    | none => matchPatternsM rest t

/-- `LegalChunker._extract_article_number`.  The source tries three
patterns in order; the first, `r"(\d+(?:\.\d+)*)"`, matches exactly when
the text contains a digit, and the other two also require a digit, so the
loop is equivalent to searching the first pattern alone. -/
def extractArticleNumber (s : String) : Option String :=
  reSearchTxt dottedNum s

/-- Result of the classification chain of the segment walk in
`extract_legal_structure` (chapter first, then section, then article,
else plain content). -/
inductive SegClass where
  | chapterK (m : String) : SegClass
  | sectionK (m : String) : SegClass
  | articleK (m : String) : SegClass
  | contentK : SegClass
deriving DecidableEq, Repr

/-- The classification chain of the segment walk: `_match_patterns`
against `chapter_patterns`, then `section_patterns`, then
`article_patterns`; no match means plain content. -/
def classifySegment (t : String) : SegClass :=
  match matchPatternsM chapter_patterns t with
  | some m => .chapterK m
  | none =>
    match matchPatternsM section_patterns t with
    | some m => .sectionK m
    | none =>
      match matchPatternsM article_patterns t with
      | some m => .articleK m
      | none => .contentK

/-- `LegalChunker._process_content_buffer`.  The external
`RecursiveCharacterTextSplitter.split_text` (langchain) is abstracted as
the `splitter` argument, exactly as the source holds it in
`self.text_splitter`. -/
def processContentBuffer (splitter : String → List String) (chunkSize : Nat)
    (buf : List String) (law_code : String)
    (chapter sectionL article : Option String) : List LegalChunk :=
  if buf = [] then [] else
  let pr := normalize_text (String.intercalate "\n" buf)
  if !pr.2 || pr.1.length < 50 then [] else
  if chunkSize < pr.1.length then
    (splitter pr.1).flatMap (fun sc =>
      let spr := normalize_text sc
      if spr.2 && decide (50 < spr.1.length) then
        [{ content := spr.1, law_code := law_code, chapter := chapter,
           sectionL := sectionL, article := article, chunk_type := "content",
           is_valid := spr.2,
           metadata := createMetadata "content" law_code chapter sectionL article none }]
      else [])
  else
    [{ content := pr.1, law_code := law_code, chapter := chapter,
       sectionL := sectionL, article := article, chunk_type := "content",
       is_valid := pr.2,
       metadata := createMetadata "content" law_code chapter sectionL article none }]

/-- The mutable walk state of `extract_legal_structure`: the current
chapter/section/article labels, the pending content buffer, and the
chunks emitted so far. -/
structure WalkState where
  chapter : Option String := none
  sectionL : Option String := none
  article : Option String := none
  buffer : List String := []
  chunks : List LegalChunk := []
deriving Repr

/-- One iteration of the segment walk of `extract_legal_structure`
(lines 97-216 of chunking.py): strip, length-gate, normalize,
validity-gate, then the chapter/section/article/content chain. -/
def stepSegment (splitter : String → List String) (chunkSize : Nat)
    (law_code : String) (st : WalkState) (raw : String) : WalkState :=
  let s := pyStrip raw
  if s = "" ∨ s.length < 20 then st else
  let pr := normalize_text s
  if !pr.2 then st else
  let t := pr.1
  match classifySegment t with
  | .chapterK m =>
    let flushed := processContentBuffer splitter chunkSize st.buffer law_code
      st.chapter st.sectionL st.article
    { chapter := some m, sectionL := st.sectionL, article := none, buffer := [],
      chunks := st.chunks ++ flushed ++
        [{ content := t, law_code := law_code, chapter := some m,
           sectionL := st.sectionL, chunk_type := "chapter", is_valid := pr.2,
           metadata := createMetadata "chapter" law_code (some m) st.sectionL
             none none }] }
  | .sectionK m =>
    let flushed := processContentBuffer splitter chunkSize st.buffer law_code
      st.chapter st.sectionL st.article
    { chapter := st.chapter, sectionL := some m, article := none, buffer := [],
      chunks := st.chunks ++ flushed ++
        [{ content := t, law_code := law_code, chapter := st.chapter,
           sectionL := some m, chunk_type := "section", is_valid := pr.2,
           metadata := createMetadata "section" law_code st.chapter (some m)
             none none }] }
  | .articleK m =>
    let flushed := processContentBuffer splitter chunkSize st.buffer law_code
      st.chapter st.sectionL st.article
    let num := extractArticleNumber m
    { chapter := st.chapter, sectionL := st.sectionL, article := some m,
      buffer := [],
      chunks := st.chunks ++ flushed ++
        [{ content := t, law_code := law_code, chapter := st.chapter,
           article := some m, sub_article := num, sectionL := st.sectionL,
           chunk_type := "article", is_valid := pr.2,
           metadata := createMetadata "article" law_code st.chapter st.sectionL
             (some m) num }] }
  | .contentK => { st with buffer := st.buffer ++ [t] }

/-- `LegalChunker._fallback_split`: blank-line split, then newline split,
then forced fixed windows, each tier only when the previous one yields
fewer than 5 pieces.  `chunk_size = 0` would make Python's `range` raise;
it is mapped to no windows. -/
def fallbackSplit (chunkSize : Nat) (t : String) : List String :=
  let s1 := splitBlank t
  if s1.length < 5 then
    let s2 := splitNl t
    if s2.length < 5 then
      if chunkSize = 0 then [] else winGo chunkSize (t.data.length + 1) t.data
    else s2
  else s1

/-- Sorted-insert with deduplication, used to model Python's
`sorted(list(set(xs)))`. -/
def insDedup (n : Nat) : List Nat → List Nat
  | [] => [n]
  | m :: r =>
    if n < m then n :: m :: r
    else if n = m then m :: r
    else m :: insDedup n r

/-- `sorted(list(set(xs)))`. -/
def dedupSort (l : List Nat) : List Nat := l.foldr insDedup []

/-- Boundary discovery of `extract_legal_structure` (lines 64-72): all
match start offsets of every pattern, deduplicated and sorted. -/
def boundariesOf (t : String) : List Nat :=
  dedupSort (all_patterns.flatMap (fun p => reFindStarts p t))

/-- The structured-splitting loop of `extract_legal_structure`
(lines 75-86): for each boundary, the stripped slice up to the next
boundary (or the end of text), kept when non-empty and longer than 20
characters.  Note that the loop starts at the first boundary, so text
before it is dropped. -/
def slicesGo (t : String) : List Nat → List String
  | [] => []
  | [p] =>
    let s := pyStrip (sliceStr t p t.length)
    if s ≠ "" ∧ 20 < s.length then [s] else []
  | p :: q :: rest =>
    let s := pyStrip (sliceStr t p q)
    (if s ≠ "" ∧ 20 < s.length then [s] else []) ++ slicesGo t (q :: rest)

/-- Segment selection of `extract_legal_structure`: the structured slices
when more than one distinct boundary was found, otherwise the fallback
splitter. -/
def sectionsOf (chunkSize : Nat) (t : String) : List String :=
  let positions := boundariesOf t
  if 1 < positions.length then slicesGo t positions
  else fallbackSplit chunkSize t

/-- `LegalChunker.extract_legal_structure`: normalize the document, pick
segments, walk them, flush the trailing buffer, and return only the
`is_valid` chunks. -/
def extractLegalStructure (splitter : String → List String) (chunkSize : Nat)
    (text law_code : String) : List LegalChunk :=
  let t := (normalize_text text).1
  let secs := sectionsOf chunkSize t
  let fin := secs.foldl (stepSegment splitter chunkSize law_code) {}
  let allChunks := fin.chunks ++
    processContentBuffer splitter chunkSize fin.buffer law_code fin.chapter
      fin.sectionL fin.article
  allChunks.filter (fun c => c.is_valid)

/-- A trivial splitter standing in for the external
`RecursiveCharacterTextSplitter` in concrete evaluations (never invoked
when every flushed content run fits in the chunk size). -/
def idSplit : String → List String := fun s => [s]

/-- Segments described by the spec's words for the structured path,
restricted to what the code keeps: for each pair of consecutive
boundaries (and from the last boundary to the end of text) the stripped
slice, kept when non-empty and longer than 20 characters.  Used to
restate the structured-splitting loop. -/
def consecSlices (t : String) (ps : List Nat) : List String :=
  (ps.zip (ps.tail ++ [t.length])).flatMap (fun pr =>
    let s := pyStrip (sliceStr t pr.1 pr.2)
    if s ≠ "" ∧ 20 < s.length then [s] else [])

/-- Well-formedness of a chunk's metadata map as claimed by the spec:
string-only values with no empty entry, the four base keys present and
correct (law names resolved through the static table with the Unknown
fallback), paired `_context` keys exactly for the present hierarchy
levels, and the `article_number` / `article_reference` pair exactly for
a present extracted article number. -/
def metaOkP (c : LegalChunk) : Prop :=
  (∀ pr ∈ c.metadata, pr.2 ≠ "") ∧
  c.metadata.lookup "law_code" = some c.law_code ∧
  c.metadata.lookup "law_name_az" = some (lawInfoFor c.law_code).name_az ∧
  c.metadata.lookup "law_name_en" = some (lawInfoFor c.law_code).name_en ∧
  c.metadata.lookup "chunk_type" = some c.chunk_type ∧
  c.metadata.lookup "chapter" = truthyOpt c.chapter ∧
  c.metadata.lookup "chapter_context" = truthyOpt c.chapter ∧
  c.metadata.lookup "section" = truthyOpt c.sectionL ∧
  c.metadata.lookup "section_context" = truthyOpt c.sectionL ∧
  c.metadata.lookup "article" = truthyOpt c.article ∧
  c.metadata.lookup "article_context" = truthyOpt c.article ∧
  c.metadata.lookup "article_number" = truthyOpt c.sub_article ∧
  c.metadata.lookup "article_reference" =
    (truthyOpt c.sub_article).map (fun n => "Maddə " ++ n)

/-- Concrete document for the invalidation scenario: the middle article
carries the repeal marker `"(ləğv edilib)"`. -/
def docInvalid : String :=
  "Maddə 1. Mülki qanun tətbiq edilir. Maddə 2. (ləğv edilib) bu mətn silinib tamam. Maddə 3. Qanunla ayrı qayda verilir."

/-- Concrete document with prose before the first structural heading. -/
def docPreamble : String :=
  "Qanunun preambula mətni buradadır Fəsil I Ümumi qaydalar toplusu Fəsil II Xüsusi qaydalar toplusu"

/-- Concrete heading-free document longer than the 50-character content
minimum (takes the fallback path and yields one content chunk). -/
def docPlain : String :=
  "Qanunvericilik sisteminin təkmilləşdirilməsi qaydaları"

/-- No two adjacent characters are both whitespace (the shape of
whitespace-collapsed text). -/
def noWsPair (a b : Char) : Prop := ¬(pyIsSpace a = true ∧ pyIsSpace b = true)

/-! Helper lemmas about the cleanup stages of `normalize_text`. -/

theorem collapseWsGo_space_mem (l : List Char) :
    ∀ b c, c ∈ collapseWsGo b l → pyIsSpace c = true → c = ' ' := by
  induction l with
  | nil => intro b c hc _; simp [collapseWsGo] at hc
  | cons d r ih =>
    intro b c hc hs
    by_cases hd : pyIsSpace d = true
    · cases b with
      | true =>
        rw [collapseWsGo, if_pos hd, if_pos rfl] at hc
        exact ih true c hc hs
      | false =>
        rw [collapseWsGo, if_pos hd] at hc
        simp only [Bool.false_eq_true, if_false, List.mem_cons] at hc
        rcases hc with hc | hc
        · exact hc
        · exact ih true c hc hs
    · rw [collapseWsGo, if_neg hd] at hc
      rcases List.mem_cons.mp hc with hc | hc
      · subst hc; exact absurd hs hd
      · exact ih false c hc hs

theorem collapseWsGo_no_newline (l : List Char) (b : Bool) :
    '\n' ∉ collapseWsGo b l := by
  intro hmem
  have h := collapseWsGo_space_mem l b '\n' hmem (by decide)
  exact absurd h (by decide)

theorem collapseNlGo_eq_self (l : List Char) :
    ∀ b, '\n' ∉ l → collapseNlGo b l = l := by
  induction l with
  | nil => intro b _; rfl
  | cons d r ih =>
    intro b hl
    have hd : ¬ d = '\n' := fun h => hl (h ▸ List.mem_cons_self d r)
    have hr : '\n' ∉ r := fun h => hl (List.mem_cons_of_mem d h)
    rw [collapseNlGo, if_neg hd, ih false hr]

theorem collapseNl_collapseWs (s : String) :
    collapseNl (collapseWs s) = collapseWs s := by
  show String.mk (collapseNlGo false (collapseWsGo false s.data)) = _
  rw [collapseNlGo_eq_self _ false (collapseWsGo_no_newline s.data false)]
  rfl

theorem stripList_subset {c : Char} {l : List Char} (h : c ∈ stripList l) :
    c ∈ l := by
  unfold stripList at h
  rw [List.mem_reverse] at h
  have h1 := (List.dropWhile_sublist (l := (l.dropWhile pyIsSpace).reverse)
    (p := pyIsSpace)).subset h
  rw [List.mem_reverse] at h1
  exact (List.dropWhile_sublist (l := l) (p := pyIsSpace)).subset h1

theorem normalize_text_fst (t : String) :
    (normalize_text t).1 =
      pyStrip (collapseNl (collapseWs (detect_invalidated_text
        (fix_spaced_text t)).1)) := rfl

theorem pyStrip_mem {c : Char} {s : String} (h : c ∈ (pyStrip s).data) :
    c ∈ s.data := stripList_subset h

theorem collapseWs_no_newline (s : String) : '\n' ∉ (collapseWs s).data := by
  show '\n' ∉ collapseWsGo false s.data
  exact collapseWsGo_no_newline s.data false

theorem normalize_text_no_newline (t : String) :
    '\n' ∉ ((normalize_text t).1).data := by
  intro hmem
  rw [normalize_text_fst, collapseNl_collapseWs] at hmem
  exact collapseWs_no_newline _ (pyStrip_mem hmem)

theorem dropWhile_head_not (p : Char → Bool) (l : List Char) :
    ∀ c, (l.dropWhile p).head? = some c → p c = false := by
  induction l with
  | nil => intro c hc; simp [List.dropWhile] at hc
  | cons d r ih =>
    intro c hc
    by_cases hd : p d = true
    · rw [List.dropWhile_cons, if_pos hd] at hc
      exact ih c hc
    · rw [List.dropWhile_cons, if_neg hd] at hc
      simp only [List.head?_cons, Option.some.injEq] at hc
      subst hc
      exact Bool.eq_false_iff.mpr hd

theorem dropWhile_eq_self_of_head (p : Char → Bool) (l : List Char)
    (h : ∀ c, l.head? = some c → p c = false) : l.dropWhile p = l := by
  cases l with
  | nil => rfl
  | cons d r =>
    have hd := h d rfl
    rw [List.dropWhile_cons, if_neg (by simp [hd])]

theorem stripList_idem (l : List Char) :
    stripList (stripList l) = stripList l := by
  unfold stripList
  set d1 := l.dropWhile pyIsSpace with hd1
  set d2 := (d1.reverse.dropWhile pyIsSpace).reverse with hd2
  have hrev : d2.reverse = d1.reverse.dropWhile pyIsSpace := by
    rw [hd2, List.reverse_reverse]
  have h1 : d2.dropWhile pyIsSpace = d2 := by
    apply dropWhile_eq_self_of_head
    intro c hc
    have hpre : d2 <+: d1 := by
      rw [hd2]
      have hsuf := List.dropWhile_suffix (l := d1.reverse) (p := pyIsSpace)
      exact List.reverse_suffix.mp (by rw [List.reverse_reverse]; exact hsuf)
    rcases hpre with ⟨tl, htl⟩
    have hh : d1.head? = some c := by
      cases hkind : d2 with
      | nil => rw [hkind] at hc; simp at hc
      | cons x xs =>
        rw [hkind] at hc
        simp only [List.head?_cons, Option.some.injEq] at hc
        rw [← htl, hkind, List.cons_append, List.head?_cons, hc]
    have hnot := dropWhile_head_not pyIsSpace l c
    rw [← hd1] at hnot
    exact hnot hh
  rw [h1, hrev, dropWhile_eq_self_of_head _ _ (dropWhile_head_not pyIsSpace d1.reverse),
    ← hrev, List.reverse_reverse]

theorem pyStrip_idem (s : String) : pyStrip (pyStrip s) = pyStrip s := by
  show String.mk (stripList (stripList s.data)) = _
  rw [stripList_idem]
  rfl

theorem collapseWsGo_true_head (l : List Char) :
    ∀ c, (collapseWsGo true l).head? = some c → pyIsSpace c = false := by
  induction l with
  | nil => intro c hc; simp [collapseWsGo] at hc
  | cons d r ih =>
    intro c hc
    by_cases hd : pyIsSpace d = true
    · rw [collapseWsGo, if_pos hd, if_pos rfl] at hc
      exact ih c hc
    · rw [collapseWsGo, if_neg hd] at hc
      simp only [List.head?_cons, Option.some.injEq] at hc
      subst hc
      exact Bool.eq_false_iff.mpr hd

theorem collapseWsGo_chain (l : List Char) :
    ∀ b, List.Chain' noWsPair (collapseWsGo b l) := by
  induction l with
  | nil => intro b; simp [collapseWsGo]
  | cons d r ih =>
    intro b
    by_cases hd : pyIsSpace d = true
    · cases b with
      | true => rw [collapseWsGo, if_pos hd, if_pos rfl]; exact ih true
      | false =>
        rw [collapseWsGo, if_pos hd]
        simp only [Bool.false_eq_true, if_false]
        rw [List.chain'_cons']
        refine ⟨?_, ih true⟩
        intro y hy
        intro hpair
        rw [Option.mem_def] at hy
        have := collapseWsGo_true_head r y hy
        rw [this] at hpair
        exact Bool.false_ne_true hpair.2
    · rw [collapseWsGo, if_neg hd]
      rw [List.chain'_cons']
      refine ⟨?_, ih false⟩
      intro y _ hpair
      exact hd hpair.1

theorem collapseWsGo_eq_self_of (l : List Char) :
    ∀ b, (∀ c ∈ l, pyIsSpace c = true → c = ' ') → List.Chain' noWsPair l →
    (b = true → ∀ c, l.head? = some c → pyIsSpace c = false) →
    collapseWsGo b l = l := by
  induction l with
  | nil => intro b _ _ _; rfl
  | cons d r ih =>
    intro b hall hchain hb
    by_cases hd : pyIsSpace d = true
    · cases b with
      | true =>
        have := hb rfl d rfl
        rw [this] at hd
        exact absurd hd (by decide)
      | false =>
        rw [collapseWsGo, if_pos hd]
        simp only [Bool.false_eq_true, if_false]
        have hd' : d = ' ' := hall d (List.mem_cons_self d r) hd
        have hr : collapseWsGo true r = r := by
          apply ih true
          · intro c hc hcs; exact hall c (List.mem_cons_of_mem d hc) hcs
          · exact (List.chain'_cons'.mp hchain).2
          · intro _ c hc
            have hrel := (List.chain'_cons'.mp hchain).1 c hc
            by_contra hcs
            exact hrel ⟨hd, Bool.not_eq_false _ |>.mp hcs⟩
        rw [hr, hd']
    · rw [collapseWsGo, if_neg hd]
      rw [ih false
        (fun c hc hcs => hall c (List.mem_cons_of_mem d hc) hcs)
        (List.chain'_cons'.mp hchain).2
        (fun h => absurd h (by decide))]

theorem chain_of_flip_chain {l : List Char}
    (h : List.Chain' (flip noWsPair) l) : List.Chain' noWsPair l := by
  refine List.Chain'.imp ?_ h
  intro a b hab hpair
  exact hab ⟨hpair.2, hpair.1⟩

theorem stripList_chain {l : List Char} (h : List.Chain' noWsPair l) :
    List.Chain' noWsPair (stripList l) := by
  unfold stripList
  have h1 : List.Chain' noWsPair (l.dropWhile pyIsSpace) :=
    List.Chain'.suffix h (List.dropWhile_suffix pyIsSpace)
  have h2 : List.Chain' noWsPair (l.dropWhile pyIsSpace).reverse := by
    rw [List.chain'_reverse]
    refine List.Chain'.imp ?_ h1
    intro a b hab hpair
    exact hab ⟨hpair.2, hpair.1⟩
  have h3 : List.Chain' noWsPair
      ((l.dropWhile pyIsSpace).reverse.dropWhile pyIsSpace) :=
    List.Chain'.suffix h2 (List.dropWhile_suffix pyIsSpace)
  rw [List.chain'_reverse]
  refine List.Chain'.imp ?_ h3
  intro a b hab hpair
  exact hab ⟨hpair.2, hpair.1⟩

theorem collapseWs_strip_fix (y : String) :
    collapseWs (pyStrip (collapseWs y)) = pyStrip (collapseWs y) := by
  show String.mk (collapseWsGo false (stripList (collapseWsGo false y.data))) = _
  rw [collapseWsGo_eq_self_of _ false
    (fun c hc => collapseWsGo_space_mem y.data false c (stripList_subset hc))
    (stripList_chain (collapseWsGo_chain y.data false))
    (fun h => absurd h (by decide))]
  rfl

theorem string_mk_data (s : String) : String.mk s.data = s := rfl

theorem collapseNl_id (s : String) (h : '\n' ∉ s.data) : collapseNl s = s := by
  show String.mk (collapseNlGo false s.data) = s
  rw [collapseNlGo_eq_self s.data false h, string_mk_data]

theorem detect_fst (t : String) :
    (detect_invalidated_text t).1 = pyStrip (stripInva t) := rfl

theorem normalize_fix_of (c y : String) (hy : c = pyStrip (collapseWs y))
    (h1 : fix_spaced_text c = c) (h2 : stripInva c = c) :
    (normalize_text c).1 = c := by
  have hnl : '\n' ∉ c.data := by
    rw [hy]; intro hmem; exact collapseWs_no_newline y (pyStrip_mem hmem)
  have hstrip : pyStrip c = c := by rw [hy, pyStrip_idem]
  have hcws : collapseWs c = c := by
    rw [hy]; exact collapseWs_strip_fix y
  rw [normalize_text_fst, h1, detect_fst, h2, hstrip, hcws,
    collapseNl_id c hnl, hstrip]

/-! Shape of the chunks emitted by the walk: everything every invariant
claim needs about `_process_content_buffer` and the structural-chunk
emissions, proved once. -/

theorem pcb_mem_shape (splitter : String → List String) (cs : Nat)
    (law : String) :
    ∀ buf ch se ar c, c ∈ processContentBuffer splitter cs buf law ch se ar →
    ∃ s, c = { content := (normalize_text s).1, law_code := law,
               chapter := ch, article := ar, sub_article := none,
               sectionL := se, chunk_type := "content",
               is_valid := (normalize_text s).2,
               metadata := createMetadata "content" law ch se ar none } ∧
         50 ≤ ((normalize_text s).1).length := by
  intro buf ch se ar c hc
  unfold processContentBuffer at hc
  split at hc
  · cases hc
  · dsimp only at hc
    split at hc
    case isTrue => cases hc
    case isFalse hguard =>
      rw [Bool.or_eq_true, not_or] at hguard
      obtain ⟨hval, hlen⟩ := hguard
      have hlen' : 50 ≤ ((normalize_text
          (String.intercalate "\n" buf)).1).length := by
        have hnot : ¬ ((normalize_text (String.intercalate "\n" buf)).1).length < 50 :=
          fun h => hlen (decide_eq_true h)
        omega
      split at hc
      · rw [List.mem_flatMap] at hc
        obtain ⟨sc, _, hcmem⟩ := hc
        split at hcmem
        case isTrue hg =>
          rw [Bool.and_eq_true] at hg
          rcases List.mem_singleton.mp hcmem with rfl
          refine ⟨sc, ?_, ?_⟩
          · have hv := hg.1
            simp only [hv]
          · have := of_decide_eq_true hg.2
            omega
        case isFalse => cases hcmem
      · rcases List.mem_singleton.mp hc with rfl
        exact ⟨String.intercalate "\n" buf, rfl, hlen'⟩

theorem step_pred (P : LegalChunk → Prop) (splitter : String → List String)
    (cs : Nat) (law : String)
    (hPCB : ∀ buf ch se ar c,
      c ∈ processContentBuffer splitter cs buf law ch se ar → P c)
    (hChap : ∀ (s m : String) (se : Option String),
      P { content := (normalize_text s).1, law_code := law,
          chapter := some m, article := none, sub_article := none,
          sectionL := se, chunk_type := "chapter",
          is_valid := (normalize_text s).2,
          metadata := createMetadata "chapter" law (some m) se none none })
    (hSec : ∀ (s m : String) (ch : Option String),
      P { content := (normalize_text s).1, law_code := law,
          chapter := ch, article := none, sub_article := none,
          sectionL := some m, chunk_type := "section",
          is_valid := (normalize_text s).2,
          metadata := createMetadata "section" law ch (some m) none none })
    (hArt : ∀ (s m : String) (ch se : Option String),
      P { content := (normalize_text s).1, law_code := law,
          chapter := ch, article := some m,
          sub_article := extractArticleNumber m, sectionL := se,
          chunk_type := "article", is_valid := (normalize_text s).2,
          metadata := createMetadata "article" law ch se (some m)
            (extractArticleNumber m) }) :
    ∀ st raw, (∀ c ∈ st.chunks, P c) →
    ∀ c ∈ (stepSegment splitter cs law st raw).chunks, P c := by
  intro st raw hst c hc
  unfold stepSegment at hc
  dsimp only at hc
  split at hc
  · exact hst c hc
  · split at hc
    · exact hst c hc
    · split at hc
      case h_1 m _ =>
        simp only [List.append_assoc, List.mem_append,
          List.mem_singleton] at hc
        rcases hc with hc | hc | hc
        · exact hst c hc
        · exact hPCB _ _ _ _ c hc
        · rw [hc]; exact hChap (pyStrip raw) m st.sectionL
      case h_2 m _ =>
        simp only [List.append_assoc, List.mem_append,
          List.mem_singleton] at hc
        rcases hc with hc | hc | hc
        · exact hst c hc
        · exact hPCB _ _ _ _ c hc
        · rw [hc]; exact hSec (pyStrip raw) m st.chapter
      case h_3 m _ =>
        simp only [List.append_assoc, List.mem_append,
          List.mem_singleton] at hc
        rcases hc with hc | hc | hc
        · exact hst c hc
        · exact hPCB _ _ _ _ c hc
        · rw [hc]; exact hArt (pyStrip raw) m st.chapter st.sectionL
      case h_4 =>
        exact hst c hc

theorem foldl_pred (P : LegalChunk → Prop) (splitter : String → List String)
    (cs : Nat) (law : String)
    (hstep : ∀ st raw, (∀ c ∈ st.chunks, P c) →
      ∀ c ∈ (stepSegment splitter cs law st raw).chunks, P c) :
    ∀ (secs : List String) (st : WalkState), (∀ c ∈ st.chunks, P c) →
    ∀ c ∈ (secs.foldl (stepSegment splitter cs law) st).chunks, P c := by
  intro secs
  induction secs with
  | nil => intro st hst c hc; exact hst c hc
  | cons s rest ih =>
    intro st hst c hc
    exact ih (stepSegment splitter cs law st s) (hstep st s hst) c hc

theorem dropWhile_mem_of_not (p : Char → Bool) :
    ∀ (m : List Char) (c : Char), c ∈ m → p c = false →
    c ∈ m.dropWhile p := by
  intro m
  induction m with
  | nil => intro c hc _; cases hc
  | cons d r ih =>
    intro c hc hcp
    by_cases hd : p d = true
    · rw [List.dropWhile_cons, if_pos hd]
      rcases List.mem_cons.mp hc with rfl | hc'
      · rw [hcp] at hd
        cases hd
      · exact ih c hc' hcp
    · rw [List.dropWhile_cons, if_neg hd]
      exact hc

theorem stripList_mem_of_not (m : List Char) (c : Char)
    (hc : c ∈ m) (hcw : pyIsSpace c = false) : c ∈ stripList m := by
  unfold stripList
  rw [List.mem_reverse]
  apply dropWhile_mem_of_not
  · rw [List.mem_reverse]
    exact dropWhile_mem_of_not _ m c hc hcw
  · exact hcw

theorem string_mk_ne_empty {p : List Char} (hp : p ≠ []) :
    String.mk p ≠ "" := by
  intro h
  rw [String.ext_iff] at h
  exact hp h

theorem splitNlGo_ne_nil (l : List Char) : splitNlGo l ≠ [] := by
  cases l with
  | nil => simp [splitNlGo]
  | cons d r =>
    rw [splitNlGo]
    rcases hsp : splitNlGo r with _ | ⟨h, tl⟩
    · simp
    · dsimp only
      split <;> simp

theorem splitNlGo_mem (c : Char) (hcw : pyIsSpace c = false) :
    ∀ l : List Char, c ∈ l → ∃ p ∈ splitNlGo l, c ∈ p := by
  have hcn : ¬ c = '\n' := by
    intro he
    rw [he] at hcw
    exact absurd hcw (by decide)
  intro l
  induction l with
  | nil => intro hc; cases hc
  | cons d r ih =>
    intro hc
    rw [splitNlGo]
    rcases hsp : splitNlGo r with _ | ⟨h, tl⟩
    · exact absurd hsp (splitNlGo_ne_nil r)
    · dsimp only
      rcases List.mem_cons.mp hc with rfl | hcr
      · rw [if_neg hcn]
        exact ⟨c :: h, List.mem_cons_self _ _, List.mem_cons_self _ _⟩
      · obtain ⟨p, hpm, hcp⟩ := ih hcr
        rw [hsp] at hpm
        by_cases hd : d = '\n'
        · rw [if_pos hd]
          exact ⟨p, List.mem_cons_of_mem _ hpm, hcp⟩
        · rw [if_neg hd]
          rcases List.mem_cons.mp hpm with rfl | hptl
          · exact ⟨d :: p, List.mem_cons_self _ _, List.mem_cons_of_mem _ hcp⟩
          · exact ⟨p, List.mem_cons_of_mem _ hptl, hcp⟩

theorem splitBlankGo_ne_nil (fuel : Nat) (l : List Char) :
    splitBlankGo fuel l ≠ [] := by
  cases fuel with
  | zero => simp [splitBlankGo]
  | succ f =>
    cases l with
    | nil => simp [splitBlankGo]
    | cons d r =>
      rw [splitBlankGo]
      by_cases hd : d = '\n'
      · rw [if_pos hd]
        rcases hni : lastNlIdx (r.takeWhile pyIsSpace) with _ | j
        · dsimp only
          rcases hsp : splitBlankGo f r with _ | ⟨h, tl⟩
          · simp
          · simp
        · simp
      · rw [if_neg hd]
        rcases hsp : splitBlankGo f r with _ | ⟨h, tl⟩
        · simp
        · simp

theorem lastNlIdx_lt (m : List Char) :
    ∀ j : Nat, lastNlIdx m = some j → j < m.length := by
  induction m with
  | nil => intro j h; simp [lastNlIdx] at h
  | cons d r ih =>
    intro j h
    rw [lastNlIdx] at h
    rcases hr : lastNlIdx r with _ | j'
    · rw [hr] at h
      dsimp only at h
      split at h
      · simp only [Option.some.injEq] at h
        simp only [List.length_cons]
        omega
      · cases h
    · rw [hr] at h
      dsimp only at h
      simp only [Option.some.injEq] at h
      have hj' := ih j' hr
      simp only [List.length_cons]
      omega

theorem take_le_takeWhile (p : Char → Bool) :
    ∀ (m : List Char) (n : Nat), n ≤ (m.takeWhile p).length →
    ∀ c, c ∈ m.take n → p c = true := by
  intro m
  induction m with
  | nil => intro n _ c hc; simp at hc
  | cons d r ih =>
    intro n hn c hc
    by_cases hd : p d = true
    · rw [List.takeWhile_cons, if_pos hd] at hn
      cases n with
      | zero => simp at hc
      | succ n' =>
        rw [List.take_succ_cons] at hc
        rcases List.mem_cons.mp hc with rfl | hc'
        · exact hd
        · exact ih n' (by simp at hn; omega) c hc'
    · rw [List.takeWhile_cons, if_neg hd] at hn
      have hn0 : n = 0 := by simp at hn; omega
      subst hn0
      simp at hc

theorem splitBlankGo_mem (c : Char) (hcw : pyIsSpace c = false) :
    ∀ (fuel : Nat) (l : List Char), c ∈ l →
    ∃ p ∈ splitBlankGo fuel l, c ∈ p := by
  have hcn : ¬ c = '\n' := by
    intro he
    rw [he] at hcw
    exact absurd hcw (by decide)
  intro fuel
  induction fuel with
  | zero =>
    intro l hc
    exact ⟨l, by simp [splitBlankGo], hc⟩
  | succ f ih =>
    intro l hc
    cases l with
    | nil => cases hc
    | cons d r =>
      rw [splitBlankGo]
      by_cases hd : d = '\n'
      · rw [if_pos hd]
        have hcr : c ∈ r := by
          rcases List.mem_cons.mp hc with rfl | h
          · exact absurd hd hcn
          · exact h
        rcases hni : lastNlIdx (r.takeWhile pyIsSpace) with _ | j
        · dsimp only
          obtain ⟨p, hpm, hcp⟩ := ih r hcr
          rcases hsp : splitBlankGo f r with _ | ⟨h, tl⟩
          · exact absurd hsp (splitBlankGo_ne_nil f r)
          · dsimp only
            rw [hsp] at hpm
            rcases List.mem_cons.mp hpm with rfl | hptl
            · exact ⟨d :: p, List.mem_cons_self _ _, List.mem_cons_of_mem _ hcp⟩
            · exact ⟨p, List.mem_cons_of_mem _ hptl, hcp⟩
        · dsimp only
          have hlt := lastNlIdx_lt _ j hni
          have hdrop : c ∈ r.drop (j + 1) := by
            have hsplit := List.take_append_drop (j + 1) r
            rw [← hsplit] at hcr
            rcases List.mem_append.mp hcr with htk | hdp
            · have := take_le_takeWhile pyIsSpace r (j + 1) (by omega) c htk
              rw [this] at hcw
              cases hcw
            · exact hdp
          obtain ⟨p, hpm, hcp⟩ := ih (r.drop (j + 1)) hdrop
          exact ⟨p, List.mem_cons_of_mem _ hpm, hcp⟩
      · rw [if_neg hd]
        rcases hsp : splitBlankGo f r with _ | ⟨h, tl⟩
        · exact absurd hsp (splitBlankGo_ne_nil f r)
        · dsimp only
          rcases List.mem_cons.mp hc with rfl | hcr
          · exact ⟨c :: h, List.mem_cons_self _ _, List.mem_cons_self _ _⟩
          · obtain ⟨p, hpm, hcp⟩ := ih r hcr
            rw [hsp] at hpm
            rcases List.mem_cons.mp hpm with rfl | hptl
            · exact ⟨d :: p, List.mem_cons_self _ _, List.mem_cons_of_mem _ hcp⟩
            · exact ⟨p, List.mem_cons_of_mem _ hptl, hcp⟩

theorem winGo_mem (cs : Nat) (hcs : 0 < cs) (c : Char)
    (hcw : pyIsSpace c = false) :
    ∀ (fuel : Nat) (l : List Char), l.length < fuel → c ∈ l →
    ∃ s ∈ winGo cs fuel l, s ≠ "" := by
  intro fuel
  induction fuel with
  | zero => intro l hl _; omega
  | succ f ih =>
    intro l hl hc
    cases l with
    | nil => cases hc
    | cons d r =>
      have hw : winGo cs (f + 1) (d :: r) =
          (if pyStrip (String.mk ((d :: r).take cs)) = "" then []
           else [String.mk ((d :: r).take cs)]) ++
          winGo cs f ((d :: r).drop cs) := rfl
      rw [hw]
      have hsplit := List.take_append_drop cs (d :: r)
      rw [← hsplit] at hc
      rcases List.mem_append.mp hc with htk | hdp
      · have hmem : c ∈ stripList ((d :: r).take cs) :=
          stripList_mem_of_not _ c htk hcw
        have heq : pyStrip (String.mk ((d :: r).take cs)) =
            String.mk (stripList ((d :: r).take cs)) := rfl
        have hne : pyStrip (String.mk ((d :: r).take cs)) ≠ "" := by
          rw [heq]
          apply string_mk_ne_empty
          intro h0
          rw [h0] at hmem
          cases hmem
        rw [if_neg hne]
        refine ⟨String.mk ((d :: r).take cs),
          List.mem_append_left _ (List.mem_singleton.mpr rfl), ?_⟩
        apply string_mk_ne_empty
        intro h0
        rw [h0] at htk
        cases htk
      · have hlen : ((d :: r).drop cs).length < f := by
          rw [List.length_drop]
          simp only [List.length_cons] at hl ⊢
          omega
        obtain ⟨s, hsm, hsne⟩ := ih ((d :: r).drop cs) hlen hdp
        exact ⟨s, List.mem_append_right _ hsm, hsne⟩

theorem slicesGo_eq_consec (t : String) :
    ∀ ps : List Nat, slicesGo t ps = consecSlices t ps := by
  intro ps
  induction ps with
  | nil => rfl
  | cons p rest ih =>
    cases rest with
    | nil =>
      show slicesGo t [p] = _
      unfold slicesGo consecSlices
      simp
    | cons q rest' =>
      show slicesGo t (p :: q :: rest') = _
      unfold slicesGo
      rw [ih]
      unfold consecSlices
      simp [List.flatMap_cons]

theorem truthyOpt_ne {o : Option String} {v : String}
    (h : truthyOpt o = some v) : v ≠ "" := by
  cases o with
  | none => simp [truthyOpt] at h
  | some w =>
    by_cases hw : w = ""
    · simp [truthyOpt, hw] at h
    · simp only [truthyOpt, if_neg hw, Option.some.injEq] at h
      subst h
      exact hw

theorem law_names_ne (lc : String) :
    (lawInfoFor lc).name_az ≠ "" ∧ (lawInfoFor lc).name_en ≠ "" := by
  unfold lawInfoFor
  cases hf : LAW_CODES.find? (fun pr => pr.2.code == lc) with
  | none =>
    refine ⟨?_, ?_⟩
    · show "Unknown" ≠ ""
      decide
    · show "Unknown" ≠ ""
      decide
  | some pr =>
    have hmem := List.mem_of_find?_eq_some hf
    have hall : ∀ q ∈ LAW_CODES, q.2.name_az ≠ "" ∧ q.2.name_en ≠ "" := by decide
    exact hall pr hmem

theorem madde_ne (v : String) : "Maddə " ++ v ≠ "" := by
  intro h
  rw [String.ext_iff] at h
  simp at h

theorem metaOkP_mk (content : String) (b : Bool) (ct law : String)
    (ch se ar an : Option String) (hlaw : law ≠ "") (hct : ct ≠ "") :
    metaOkP { content := content, law_code := law, chapter := ch,
              article := ar, sub_article := an, sectionL := se,
              chunk_type := ct, is_valid := b,
              metadata := createMetadata ct law ch se ar an } := by
  have hnames := law_names_ne law
  unfold metaOkP createMetadata
  dsimp only
  cases h1 : truthyOpt ch <;> cases h2 : truthyOpt se <;>
    cases h3 : truthyOpt ar <;> cases h4 : truthyOpt an <;>
  refine ⟨fun pr hpr => ?_, rfl, rfl, rfl, rfl, rfl, rfl, rfl, rfl, rfl,
    rfl, rfl, rfl⟩ <;>
  simp only [List.append_assoc, List.cons_append, List.nil_append,
    List.mem_cons, List.not_mem_nil, or_false] at hpr <;>
  rcases hpr with rfl|rfl|rfl|rfl|rfl|rfl|rfl|rfl|rfl|rfl|rfl|rfl <;>
  first
  | exact hlaw
  | exact hct
  | exact hnames.1
  | exact hnames.2
  | exact truthyOpt_ne h1
  | exact truthyOpt_ne h2
  | exact truthyOpt_ne h3
  | exact truthyOpt_ne h4
  | exact madde_ne _

theorem extract_pred (P : LegalChunk → Prop) (splitter : String → List String)
    (cs : Nat) (law text : String)
    (hPCB : ∀ buf ch se ar c,
      c ∈ processContentBuffer splitter cs buf law ch se ar → P c)
    (hChap : ∀ (s m : String) (se : Option String),
      P { content := (normalize_text s).1, law_code := law,
          chapter := some m, article := none, sub_article := none,
          sectionL := se, chunk_type := "chapter",
          is_valid := (normalize_text s).2,
          metadata := createMetadata "chapter" law (some m) se none none })
    (hSec : ∀ (s m : String) (ch : Option String),
      P { content := (normalize_text s).1, law_code := law,
          chapter := ch, article := none, sub_article := none,
          sectionL := some m, chunk_type := "section",
          is_valid := (normalize_text s).2,
          metadata := createMetadata "section" law ch (some m) none none })
    (hArt : ∀ (s m : String) (ch se : Option String),
      P { content := (normalize_text s).1, law_code := law,
          chapter := ch, article := some m,
          sub_article := extractArticleNumber m, sectionL := se,
          chunk_type := "article", is_valid := (normalize_text s).2,
          metadata := createMetadata "article" law ch se (some m)
            (extractArticleNumber m) }) :
    ∀ c ∈ extractLegalStructure splitter cs text law, P c := by
  intro c hc
  unfold extractLegalStructure at hc
  have hc' := List.mem_filter.mp hc
  rcases List.mem_append.mp hc'.1 with hm | hm
  · exact foldl_pred P splitter cs law
      (step_pred P splitter cs law hPCB hChap hSec hArt) _ {}
      (by intro x hx; cases hx) c hm
  · exact hPCB _ _ _ _ c hm

theorem getLast?_append_singleton (l1 l2 : List LegalChunk) (x : LegalChunk) :
    (l1 ++ l2 ++ [x]).getLast? = some x := List.getLast?_concat _

theorem normalize_text_snd (t : String) :
    (normalize_text t).2 =
      (detect_invalidated_text (fix_spaced_text t)).2 := by
  unfold normalize_text
  dsimp only

/-! The claims. -/

/-- C1: every chunk in the list returned by `extract_legal_structure` has
`is_valid = true`; no chunk marked invalid by normalization appears in the
output (the final filter keeps exactly the valid chunks). -/
theorem claim_C1 (splitter : String → List String) (cs : Nat)
    (text law_code : String) :
    (extractLegalStructure splitter cs text law_code).all
      (fun c => c.is_valid) = true := by
  rw [List.all_eq_true]
  intro c hc
  unfold extractLegalStructure at hc
  exact (List.mem_filter.mp hc).2

/-- C2: segment classification tests the chapter family first, then
section, then article, stopping at the first family with a match anywhere
in the segment (the match position never matters), and a segment matching
no family is plain content. -/
theorem claim_C2 (t : String) :
    (∀ m, matchPatternsM chapter_patterns t = some m →
      classifySegment t = SegClass.chapterK m) ∧
    (matchPatternsM chapter_patterns t = none →
      ∀ m, matchPatternsM section_patterns t = some m →
      classifySegment t = SegClass.sectionK m) ∧
    (matchPatternsM chapter_patterns t = none →
      matchPatternsM section_patterns t = none →
      ∀ m, matchPatternsM article_patterns t = some m →
      classifySegment t = SegClass.articleK m) ∧
    (matchPatternsM chapter_patterns t = none →
      matchPatternsM section_patterns t = none →
      matchPatternsM article_patterns t = none →
      classifySegment t = SegClass.contentK) := by
  refine ⟨?_, ?_, ?_, ?_⟩
  · intro m hm
    unfold classifySegment
    rw [hm]
  · intro h0 m hm
    unfold classifySegment
    rw [h0, hm]
  · intro h0 h1 m hm
    unfold classifySegment
    rw [h0, h1, hm]
  · intro h0 h1 h2
    unfold classifySegment
    rw [h0, h1, h2]

/-- C2 witness: a segment where an article pattern matches at position 0
but a chapter pattern matches later is still classified as a chapter. -/
theorem claim_C2_witness :
    matchPatternsM article_patterns "3. Barədə qaydalar Fəsil IV" =
      some "3. B" ∧
    classifySegment "3. Barədə qaydalar Fəsil IV" =
      SegClass.chapterK "Fəsil IV" :=
  ⟨by decide,
   (claim_C2 "3. Barədə qaydalar Fəsil IV").1 "Fəsil IV" (by decide)⟩

/-- C3 (amended): with at least 2 distinct boundaries, the processed
segments are the stripped slices between consecutive boundaries plus the
slice from the last boundary to the end of text, kept when longer than 20
characters; the text before the first boundary is discarded.  With fewer
than 2 boundaries the segments come from the fallback splitter. -/
theorem claim_C3 (cs : Nat) (t : String) :
    (1 < (boundariesOf t).length →
      sectionsOf cs t = consecSlices t (boundariesOf t)) ∧
    ((boundariesOf t).length ≤ 1 →
      sectionsOf cs t = fallbackSplit cs t) := by
  constructor
  · intro h
    unfold sectionsOf
    dsimp only
    rw [if_pos h, slicesGo_eq_consec]
  · intro h
    unfold sectionsOf
    dsimp only
    rw [if_neg (by omega)]

/-- C3 counterexample: a document whose 33-character preamble precedes the
first boundary; the preamble is not among the processed segments and no
segment contains it, refuting the claim that the text before the first
boundary is a segment. -/
theorem claim_C3_cex :
    (normalize_text docPreamble).1 = docPreamble ∧
    1 < (boundariesOf docPreamble).length ∧
    sectionsOf 800 docPreamble =
      ["Fəsil I Ümumi qaydalar toplusu",
       "Fəsil II Xüsusi qaydalar toplusu"] ∧
    (∀ s ∈ ["Fəsil I Ümumi qaydalar toplusu",
            "Fəsil II Xüsusi qaydalar toplusu"],
      ¬ ("preambula".data <:+: s.data)) := by
  refine ⟨by decide, by decide, by decide, by decide⟩

/-- C3 witness: both branches of the amended claim at concrete inputs. -/
theorem claim_C3_witness :
    sectionsOf 800 "Fəsil I Fəsil II" =
      consecSlices "Fəsil I Fəsil II" (boundariesOf "Fəsil I Fəsil II") ∧
    sectionsOf 800 "abc" = fallbackSplit 800 "abc" :=
  ⟨(claim_C3 800 "Fəsil I Fəsil II").1 (by decide),
   (claim_C3 800 "abc").2 (by decide)⟩

/-- C4 (amended): the fallback splitter returns at least one non-empty
segment for every input containing at least one non-whitespace character
(with a positive chunk size) — the blank-line and newline tiers cut only
at whitespace separators, and the forced-window tier keeps the window
holding the non-whitespace character; `extract_legal_structure` itself
does not guarantee a chunk for every non-empty input, and a
whitespace-only input can yield no fallback segment at all. -/
theorem claim_C4 (cs : Nat) (t : String) (hcs : 0 < cs)
    (hex : ∃ c ∈ t.data, pyIsSpace c = false) :
    ∃ s, s ∈ fallbackSplit cs t ∧ s ≠ "" := by
  obtain ⟨c, hcm, hcw⟩ := hex
  unfold fallbackSplit
  dsimp only
  split
  case isTrue =>
    split
    case isTrue =>
      rw [if_neg (by omega)]
      obtain ⟨s, hsm, hsne⟩ := winGo_mem cs hcs c hcw
        (t.data.length + 1) t.data (by omega) hcm
      exact ⟨s, hsm, hsne⟩
    case isFalse =>
      obtain ⟨p, hpm, hcp⟩ := splitNlGo_mem c hcw t.data hcm
      refine ⟨String.mk p, ?_, ?_⟩
      · unfold splitNl
        exact List.mem_map_of_mem _ hpm
      · apply string_mk_ne_empty
        intro h0
        rw [h0] at hcp
        cases hcp
  case isFalse =>
    obtain ⟨p, hpm, hcp⟩ := splitBlankGo_mem c hcw
      (t.data.length + 1) t.data hcm
    refine ⟨String.mk p, ?_, ?_⟩
    · unfold splitBlank
      exact List.mem_map_of_mem _ hpm
    · apply string_mk_ne_empty
      intro h0
      rw [h0] at hcp
      cases hcp

/-- C4 counterexample: the non-empty input `"short text"` yields zero
chunks (its only fallback segment is shorter than 20 characters), and the
non-empty input `" "` makes `_fallback_split` return no segment at all. -/
theorem claim_C4_cex :
    ("short text" ≠ "" ∧
      extractLegalStructure idSplit 800 "short text" "civil" = []) ∧
    (" " ≠ "" ∧ fallbackSplit 800 " " = []) := by
  exact ⟨⟨by decide, by decide⟩, ⟨by decide, by decide⟩⟩

/-- C4 witness: the amended claim applied at a concrete input that does
contain whitespace. -/
theorem claim_C4_witness :
    ∃ s, s ∈ fallbackSplit 800 "ab cd" ∧ s ≠ "" :=
  claim_C4 800 "ab cd" (by decide) (by decide)

/-- C5: no returned `content` chunk is shorter than the 50-character
minimum; segments shorter than 20 characters are never considered (the
walk leaves the state unchanged on them); chapter/section/article chunks
carry the normalized heading segment text with no minimum-length
requirement. -/
theorem claim_C5 (splitter : String → List String) (cs : Nat)
    (text law_code : String) (st : WalkState) (raw : String) :
    ((extractLegalStructure splitter cs text law_code).all
      (fun c => !(c.chunk_type == "content") ||
        decide (50 ≤ c.content.length)) = true) ∧
    ((pyStrip raw).length < 20 →
      stepSegment splitter cs law_code st raw = st) ∧
    (¬(pyStrip raw = "" ∨ (pyStrip raw).length < 20) →
      (normalize_text (pyStrip raw)).2 = true →
      ((∀ m, classifySegment (normalize_text (pyStrip raw)).1 =
          SegClass.chapterK m →
        ∃ c, (stepSegment splitter cs law_code st raw).chunks.getLast? =
            some c ∧
          c.content = (normalize_text (pyStrip raw)).1 ∧
          c.chunk_type = "chapter") ∧
       (∀ m, classifySegment (normalize_text (pyStrip raw)).1 =
          SegClass.sectionK m →
        ∃ c, (stepSegment splitter cs law_code st raw).chunks.getLast? =
            some c ∧
          c.content = (normalize_text (pyStrip raw)).1 ∧
          c.chunk_type = "section") ∧
       (∀ m, classifySegment (normalize_text (pyStrip raw)).1 =
          SegClass.articleK m →
        ∃ c, (stepSegment splitter cs law_code st raw).chunks.getLast? =
            some c ∧
          c.content = (normalize_text (pyStrip raw)).1 ∧
          c.chunk_type = "article"))) := by
  refine ⟨?_, ?_, ?_⟩
  · rw [List.all_eq_true]
    apply extract_pred
    · intro buf ch se ar c hc
      obtain ⟨s, rfl, hlen⟩ := pcb_mem_shape splitter cs law_code buf ch se ar c hc
      simp [hlen]
    · intro s m se
      simp
    · intro s m ch
      simp
    · intro s m ch se
      simp
  · intro hshort
    unfold stepSegment
    dsimp only
    rw [if_pos (Or.inr hshort)]
  · intro hgate hval
    unfold stepSegment
    dsimp only
    rw [if_neg hgate, hval, if_neg (show ¬((!true) = true) by decide)]
    refine ⟨?_, ?_, ?_⟩
    · intro m hm
      rw [hm]
      dsimp only
      exact ⟨_, getLast?_append_singleton _ _ _, rfl, rfl⟩
    · intro m hm
      rw [hm]
      dsimp only
      exact ⟨_, getLast?_append_singleton _ _ _, rfl, rfl⟩
    · intro m hm
      rw [hm]
      dsimp only
      exact ⟨_, getLast?_append_singleton _ _ _, rfl, rfl⟩

/-- C5 witness: a sub-20-character segment is skipped, and a chapter
heading segment shorter than the 50-character content minimum is still
emitted verbatim. -/
theorem claim_C5_witness :
    (stepSegment idSplit 800 "civil" {} "abc" = ({} : WalkState)) ∧
    (∃ c, (stepSegment idSplit 800 "civil" {}
        "Fəsil I Ümumi qaydalar").chunks.getLast? = some c ∧
      c.content = (normalize_text (pyStrip "Fəsil I Ümumi qaydalar")).1 ∧
      c.chunk_type = "chapter") :=
  ⟨(claim_C5 idSplit 800 "" "civil" {} "abc").2.1 (by decide),
   ((claim_C5 idSplit 800 "" "civil" {} "Fəsil I Ümumi qaydalar").2.2
     (by decide) (by decide)).1 "Fəsil I" (by decide)⟩

/-- C6 (amended): `normalize_text` is idempotent on its clean text
whenever the clean text is a fixed point of the despacing rewrite and of
invalidation stripping; in general re-normalizing can change the text,
because the stripping pass can create new despaceable or strippable
forms. -/
theorem claim_C6 (t : String)
    (h1 : fix_spaced_text (normalize_text t).1 = (normalize_text t).1)
    (h2 : stripInva (normalize_text t).1 = (normalize_text t).1) :
    (normalize_text (normalize_text t).1).1 = (normalize_text t).1 := by
  apply normalize_fix_of _ (detect_invalidated_text (fix_spaced_text t)).1
    _ h1 h2
  rw [normalize_text_fst, collapseNl_collapseWs]

/-- C6 counterexample: stripping the line character from
`"M ─ a d d ə"` leaves the letter-spaced `"M a d d ə"`, which the second
normalization despaces to `"Maddə"` — so normalize is not idempotent on
its clean-text component. -/
theorem claim_C6_cex :
    (normalize_text (normalize_text "M ─ a d d ə").1).1 ≠
      (normalize_text "M ─ a d d ə").1 := by decide

/-- C6 witness: the amended claim applied at a concrete input. -/
theorem claim_C6_witness :
    (normalize_text (normalize_text "hello world sample text").1).1 =
      (normalize_text "hello world sample text").1 :=
  claim_C6 "hello world sample text" (by decide) (by decide)

/-- C7: a section segment sets the section and clears the article but
keeps the chapter (and the emitted section chunk still carries the
chapter label); an article segment sets the article and clears neither
chapter nor section; a chapter segment sets the chapter and clears the
article. -/
theorem claim_C7 (splitter : String → List String) (cs : Nat)
    (law_code : String) (st : WalkState) (raw : String)
    (hgate : ¬(pyStrip raw = "" ∨ (pyStrip raw).length < 20))
    (hval : (normalize_text (pyStrip raw)).2 = true) :
    (∀ m, classifySegment (normalize_text (pyStrip raw)).1 =
        SegClass.sectionK m →
      (stepSegment splitter cs law_code st raw).chapter = st.chapter ∧
      (stepSegment splitter cs law_code st raw).sectionL = some m ∧
      (stepSegment splitter cs law_code st raw).article = none ∧
      ∃ c, (stepSegment splitter cs law_code st raw).chunks.getLast? =
          some c ∧
        c.chapter = st.chapter ∧ c.chunk_type = "section") ∧
    (∀ m, classifySegment (normalize_text (pyStrip raw)).1 =
        SegClass.articleK m →
      (stepSegment splitter cs law_code st raw).chapter = st.chapter ∧
      (stepSegment splitter cs law_code st raw).sectionL = st.sectionL ∧
      (stepSegment splitter cs law_code st raw).article = some m) ∧
    (∀ m, classifySegment (normalize_text (pyStrip raw)).1 =
        SegClass.chapterK m →
      (stepSegment splitter cs law_code st raw).chapter = some m ∧
      (stepSegment splitter cs law_code st raw).article = none) := by
  refine ⟨?_, ?_, ?_⟩
  · intro m hm
    unfold stepSegment
    dsimp only
    rw [if_neg hgate, hval, if_neg (show ¬((!true) = true) by decide)]
    rw [hm]
    dsimp only
    exact ⟨rfl, rfl, rfl, _, getLast?_append_singleton _ _ _, rfl, rfl⟩
  · intro m hm
    unfold stepSegment
    dsimp only
    rw [if_neg hgate, hval, if_neg (show ¬((!true) = true) by decide)]
    rw [hm]
    exact ⟨rfl, rfl, rfl⟩
  · intro m hm
    unfold stepSegment
    dsimp only
    rw [if_neg hgate, hval, if_neg (show ¬((!true) = true) by decide)]
    rw [hm]
    exact ⟨rfl, rfl⟩

/-- C7 witness: the three transitions at concrete segments, starting from
a state with all three labels set. -/
theorem claim_C7_witness :
    (stepSegment idSplit 800 "civil"
        ⟨some "c0", some "s0", some "a0", [], []⟩
        "Bölüm I Ümumi qaydalar toplusu").chapter = some "c0" ∧
    (stepSegment idSplit 800 "civil"
        ⟨some "c0", some "s0", some "a0", [], []⟩
        "Bölüm I Ümumi qaydalar toplusu").sectionL = some "Bölüm I" ∧
    (stepSegment idSplit 800 "civil"
        ⟨some "c0", some "s0", some "a0", [], []⟩
        "Bölüm I Ümumi qaydalar toplusu").article = none ∧
    (stepSegment idSplit 800 "civil"
        ⟨some "c0", some "s0", some "a0", [], []⟩
        "Maddə 5. Qaydalar burada verilir").article = some "Maddə 5" ∧
    (stepSegment idSplit 800 "civil"
        ⟨some "c0", some "s0", some "a0", [], []⟩
        "Fəsil III Ümumi qaydalar").chapter = some "Fəsil III" := by
  have hs := (claim_C7 idSplit 800 "civil"
    ⟨some "c0", some "s0", some "a0", [], []⟩
    "Bölüm I Ümumi qaydalar toplusu" (by decide) (by decide)).1
    "Bölüm I" (by decide)
  have ha := (claim_C7 idSplit 800 "civil"
    ⟨some "c0", some "s0", some "a0", [], []⟩
    "Maddə 5. Qaydalar burada verilir" (by decide) (by decide)).2.1
    "Maddə 5" (by decide)
  have hc := (claim_C7 idSplit 800 "civil"
    ⟨some "c0", some "s0", some "a0", [], []⟩
    "Fəsil III Ümumi qaydalar" (by decide) (by decide)).2.2
    "Fəsil III" (by decide)
  exact ⟨hs.1, hs.2.1, hs.2.2.1, ha.2.2, hc.1⟩

/-- C8 (amended): `detect_invalidated_text` flags the input invalid
exactly when some invalidation pattern matches anywhere or the `17.2.3`
special case fires (binary over the whole input); `normalize_text`
propagates that flag; and a segment whose normalization is invalid is
skipped by the walk — but only markers that survive the document-level
normalization at the start of `extract_legal_structure` can trigger this,
since that first pass strips markers from the whole document. -/
theorem claim_C8 :
    (∀ t, (detect_invalidated_text t).2 = false ↔
      (invalidation_patterns.any (fun p => reTest p t) = true ∨
       (reTest re1723 t = true ∧
        t.data.any (fun c => lineChars.data.contains c) = true))) ∧
    (∀ t, (normalize_text t).2 =
      (detect_invalidated_text (fix_spaced_text t)).2) ∧
    (∀ (splitter : String → List String) (cs : Nat) (law : String)
       (st : WalkState) (raw : String),
      (normalize_text (pyStrip raw)).2 = false →
      stepSegment splitter cs law st raw = st) := by
  refine ⟨?_, normalize_text_snd, ?_⟩
  · intro t
    show (!(invalidation_patterns.any fun p => reTest p t) &&
      !(reTest re1723 t &&
        t.data.any fun c => lineChars.data.contains c)) = false ↔ _
    cases hA : invalidation_patterns.any (fun p => reTest p t) <;>
      cases hB : reTest re1723 t <;>
      cases hC : t.data.any (fun c => lineChars.data.contains c) <;>
      simp
  · intro splitter cs law st raw hinv
    unfold stepSegment
    dsimp only
    split
    · rfl
    · rw [hinv, if_pos (show (!false) = true by decide)]

/-- C8 counterexample: `docInvalid` contains `"(ləğv edilib)"` inside its
middle article segment, yet the output still contains a chunk derived
from that segment (the document-level normalization stripped the marker
before segmentation), refuting the claim that such a segment is entirely
excluded while its neighbours remain. -/
theorem claim_C8_cex :
    ("(ləğv edilib)".data <:+: docInvalid.data) ∧
    (extractLegalStructure idSplit 800 docInvalid "civil").map
        (fun c => c.content) =
      ["1. Mülki qanun tətbiq edilir.", "2. bu mətn silinib tamam.",
       "3. Qanunla ayrı qayda verilir."] := by
  exact ⟨by decide, by decide⟩

/-- C8 witness: a segment whose own normalization is invalid is skipped
by the walk. -/
theorem claim_C8_witness :
    stepSegment idSplit 800 "civil" {}
      "bu maddə qüvvədən düşüb tamamilə" = ({} : WalkState) :=
  claim_C8.2.2 idSplit 800 "civil" {}
    "bu maddə qüvvədən düşüb tamamilə" (by decide)

/-- C9 (amended): provided the caller-supplied law code is non-empty,
every returned chunk's metadata holds only non-empty string values, with
the four base keys (names falling back to "Unknown"), paired `_context`
keys exactly for present hierarchy levels, and the
`article_number`/`article_reference` pair exactly for a present extracted
number. -/
theorem claim_C9 (splitter : String → List String) (cs : Nat)
    (text law_code : String) (hlaw : law_code ≠ "") :
    ∀ c ∈ extractLegalStructure splitter cs text law_code, metaOkP c := by
  apply extract_pred
  · intro buf ch se ar c hc
    obtain ⟨s, rfl, -⟩ :=
      pcb_mem_shape splitter cs law_code buf ch se ar c hc
    exact metaOkP_mk _ _ _ _ _ _ _ _ hlaw (by decide)
  · intro s m se
    exact metaOkP_mk _ _ _ _ _ _ _ _ hlaw (by decide)
  · intro s m ch
    exact metaOkP_mk _ _ _ _ _ _ _ _ hlaw (by decide)
  · intro s m ch se
    exact metaOkP_mk _ _ _ _ _ _ _ _ hlaw (by decide)

/-- C9 counterexample: with an empty caller-supplied law code the
returned chunk's metadata carries an empty `law_code` value, refuting the
no-empty-entries claim as stated for every input. -/
theorem claim_C9_cex :
    (extractLegalStructure idSplit 800 docPlain "").any
      (fun c => c.metadata.lookup "law_code" == some "") = true := by decide

/-- C9 witness: the amended claim applied to the concrete content chunk
produced for `docPlain`. -/
theorem claim_C9_witness :
    metaOkP { content := docPlain, law_code := "civil", chapter := none,
              article := none, sub_article := none, sectionL := none,
              chunk_type := "content", is_valid := true,
              metadata := [("law_code", "civil"),
                           ("law_name_az", "M√ºlki M…ôc…ôll…ô"),
                           ("law_name_en", "Civil Law Code"),
                           ("chunk_type", "content")] } :=
  claim_C9 idSplit 800 docPlain "civil" (by decide) _ (by decide)

/-- C10: the whitespace collapse removes every newline, so the newline
collapse that follows it never changes the text, the clean text contains
no newline, and every emitted chunk's content is newline-free. -/
theorem claim_C10 :
    (∀ s, collapseNl (collapseWs s) = collapseWs s) ∧
    (∀ t, ((normalize_text t).1).data.contains '\n' = false) ∧
    (∀ (splitter : String → List String) (cs : Nat) (text law_code : String),
      (extractLegalStructure splitter cs text law_code).all
        (fun c => !(c.content.data.contains '\n')) = true) := by
  have hcontains : ∀ l : List Char, '\n' ∉ l → l.contains '\n' = false := by
    intro l hl
    rw [← Bool.not_eq_true, List.contains_eq_any_beq]
    simp only [List.any_eq_true, beq_iff_eq, not_exists, not_and]
    intro c hc he
    exact hl (he ▸ hc)
  refine ⟨collapseNl_collapseWs, ?_, ?_⟩
  · intro t
    exact hcontains _ (normalize_text_no_newline t)
  · intro splitter cs text law_code
    rw [List.all_eq_true]
    apply extract_pred
    · intro buf ch se ar c hc
      obtain ⟨s, rfl, -⟩ :=
        pcb_mem_shape splitter cs law_code buf ch se ar c hc
      simp only [Bool.not_eq_true']
      exact hcontains _ (normalize_text_no_newline s)
    · intro s m se
      simp only [Bool.not_eq_true']
      exact hcontains _ (normalize_text_no_newline s)
    · intro s m ch
      simp only [Bool.not_eq_true']
      exact hcontains _ (normalize_text_no_newline s)
    · intro s m ch se
      simp only [Bool.not_eq_true']
      exact hcontains _ (normalize_text_no_newline s)

end LegalRAG
